import Mathlib

/-!
Shallow embedding of `scripts/build_doctor_directory.py`: the row classifier,
field normalizer, specialty inferrer and the identity-based deduplicator,
together with the SHA-1 digest used for the identity key.

Python strings are modelled as `List Char` (`PyStr`); the whitespace set,
lower-casing and the digit class are modelled at the ASCII level, which is the
alphabet the script's fixed keyword tables and delimiters live in.
-/

namespace DoctorDir

/-- A Python string, as its list of characters. -/
abbrev PyStr := List Char

/-- The whitespace class used by Python's `str.split()` and `\s` on `str`:
the code points with `str.isspace()` true (tab, newline, VT, FF, CR,
FS/GS/RS/US, space, NEL, NBSP, ogham space mark, the en/em quad family,
line and paragraph separator, narrow no-break space, medium mathematical
space, ideographic space). -/
def isPySpace (c : Char) : Bool :=
  (9 ≤ c.toNat && c.toNat ≤ 13) || (28 ≤ c.toNat && c.toNat ≤ 32) ||
    c.toNat = 133 || c.toNat = 160 || c.toNat = 5760 ||
    (8192 ≤ c.toNat && c.toNat ≤ 8202) || c.toNat = 8232 || c.toNat = 8233 ||
    c.toNat = 8239 || c.toNat = 8287 || c.toNat = 12288

/-- The decimal-digit class used by the `\d` check in `looks_like_doctor`. -/
def isDigitPy (c : Char) : Bool :=
  48 ≤ c.toNat && c.toNat ≤ 57

/-- ASCII lower-casing of one character, as in `str.lower()`. -/
def toLowerPy (c : Char) : Char :=
  if 65 ≤ c.toNat ∧ c.toNat ≤ 90 then Char.ofNat (c.toNat + 32) else c

/-- `s.lower()`. -/
def lowerPy (s : PyStr) : PyStr :=
  s.map toLowerPy

/-- Fuel-indexed worker for `splitIf`; the fuel only has to dominate the
string length, see `splitIfF_fuel`. -/
def splitIfF (p : Char → Bool) : Nat → PyStr → List PyStr
  | _, [] => [[]]
  | 0, s => [s]
  | fuel + 1, s =>
    let tok := s.takeWhile (fun c => ¬ p c)
    match s.dropWhile (fun c => ¬ p c) with
    | [] => [tok]
    | _ :: rest => tok :: splitIfF p fuel (rest.dropWhile p)

/-- `re.split("[p]+", s)`: split `s` at maximal runs of characters satisfying
`p`; fragments at the borders may be empty, interior fragments between two
runs are the maximal run-free stretches. -/
def splitIf (p : Char → Bool) (s : PyStr) : List PyStr :=
  splitIfF p s.length s

/-- Python's `value.split()`: whitespace-run splitting with no empty tokens. -/
def pyWords (s : PyStr) : List PyStr :=
  (splitIf isPySpace s).filter (fun t => ¬ t.isEmpty)

/-- `" ".join(ws)`. -/
def joinSp : List PyStr → PyStr
  | [] => []
  | [w] => w
  | w :: ws => w ++ ' ' :: joinSp ws

/-- `normalize_whitespace(value) = " ".join(value.split())`. -/
def normalizeWhitespace (s : PyStr) : PyStr :=
  joinSp (pyWords s)

/-- `s.dropWhile p` from the right end. -/
def dropTrailing (p : Char → Bool) (s : PyStr) : PyStr :=
  (s.reverse.dropWhile p).reverse

/-- Python's `part.strip(" ;")`: remove leading and trailing spaces and
semicolons. -/
def stripSpaceSemi (s : PyStr) : PyStr :=
  dropTrailing (fun c => c = ' ' || c = ';') (s.dropWhile (fun c => c = ' ' || c = ';'))

/-- `split_multi_value(value)`: split on runs of `;`/newline, keep the
fragments whose `strip(" ;")` is non-empty, and whitespace-normalize each
kept fragment after stripping. -/
def splitMultiValue (value : PyStr) : List PyStr :=
  if value.isEmpty then []
  else
    ((splitIf (fun c => c = ';' || c = '\n') value).filter
        (fun part => ¬ (stripSpaceSemi part).isEmpty)).map
      (fun part => normalizeWhitespace (stripSpaceSemi part))

/-- `needle.isPrefixOf hay`, written out for easy induction. -/
def isPrefText : PyStr → PyStr → Bool
  | [], _ => true
  | _ :: _, [] => false
  | a :: xs, b :: ys => a = b && isPrefText xs ys

/-- Python's substring test `needle in hay`. -/
def subText (needle : PyStr) : PyStr → Bool
  | [] => needle.isEmpty
  | c :: rest => isPrefText needle (c :: rest) || subText needle rest

/-- The `BLOCK_KEYWORDS` set of the script. -/
def BLOCK_KEYWORDS : List PyStr :=
  [("hospital").data, ("medical").data, ("clinic").data, ("company").data,
   ("co.").data, ("est").data, ("contracting").data, ("insurance").data,
   ("drops").data, ("tablet").data, ("capsule").data, ("solution").data,
   ("syrup").data, ("pharma").data, ("laboratory").data, ("lab").data,
   ("finance").data, ("statement").data, ("analysis").data, ("services").data,
   ("provider").data, ("bupa").data, ("tawnia").data, ("claim").data,
   ("eligibility").data, ("response").data, ("direct").data, ("copy").data]

/-- The placeholder-label stoplist of `looks_like_doctor`. -/
def STOP_LABELS : List PyStr :=
  [("doctor name").data, ("name").data, ("(blank)").data]

/-- A character splitting name tokens: hyphen, comma or whitespace
(`re.split(r"[-,\s]+", ...)`). -/
def isSepChar (c : Char) : Bool :=
  c = '-' || c = ',' || isPySpace c

/-- The non-empty tokens of a normalized name. -/
def nameTokens (normalized : PyStr) : List PyStr :=
  (splitIf isSepChar normalized).filter (fun t => ¬ t.isEmpty)

/-- `looks_like_doctor(name)`: the locals `normalized` and `lower` of the
Python function are written inline. -/
def looksLikeDoctor (name : PyStr) : Bool :=
  if name.isEmpty then false
  else if decide (lowerPy (normalizeWhitespace name) ∈ STOP_LABELS) then false
  else if BLOCK_KEYWORDS.any
      (fun keyword => subText keyword (lowerPy (normalizeWhitespace name))) then false
  else if (normalizeWhitespace name).any isDigitPy then false
  else decide (2 ≤ (nameTokens (normalizeWhitespace name)).length)

/-- The `SPECIALTY_KEYWORDS` table of the script, in declaration order. -/
def SPECIALTY_KEYWORDS : List (PyStr × PyStr) :=
  [(("cardio").data, ("Cardiology").data),
   (("derma").data, ("Dermatology").data),
   (("dermato").data, ("Dermatology").data),
   (("neuro").data, ("Neurology").data),
   (("nephro").data, ("Nephrology").data),
   (("pulmo").data, ("Pulmonology").data),
   (("gastro").data, ("Gastroenterology").data),
   (("endo").data, ("Endocrinology").data),
   (("onco").data, ("Oncology").data),
   (("pedi").data, ("Pediatrics").data),
   (("ortho").data, ("Orthopedics").data),
   (("psy").data, ("Psychiatry").data),
   (("ophth").data, ("Ophthalmology").data),
   (("ent").data, ("Otolaryngology").data),
   (("uro").data, ("Urology").data),
   (("obst").data, ("Obstetrics & Gynecology").data),
   (("gyn").data, ("Obstetrics & Gynecology").data)]

/-- `" ".join(field.lower() for field in fields if field)`. -/
def combinedText (fields : List PyStr) : PyStr :=
  joinSp ((fields.filter (fun f => ¬ f.isEmpty)).map lowerPy)

/-- The keyword scan of `infer_specialty`: first declared match wins. -/
def findSpecialty : List (PyStr × PyStr) → PyStr → PyStr
  | [], _ => ("General Practice").data
  | (keyword, specialty) :: rest, combined =>
    if subText keyword combined then specialty else findSpecialty rest combined

/-- `infer_specialty(*fields)`. -/
def inferSpecialty (fields : List PyStr) : PyStr :=
  findSpecialty SPECIALTY_KEYWORDS (combinedText fields)

/-! ### SHA-1, as used for the identity key (`hashlib.sha1(...).hexdigest()`) -/

/-- Left-rotation of a 32-bit word. -/
def rotl32 (n k : Nat) : Nat :=
  ((n <<< k) ||| (n >>> (32 - k))) % 4294967296

/-- Big-endian bytes of `n`, exactly `w` bytes wide. -/
def bytesBE : Nat → Nat → List Nat
  | 0, _ => []
  | w + 1, n => bytesBE w (n / 256) ++ [n % 256]

/-- UTF-8 encoding of one scalar value. -/
def utf8Char (n : Nat) : List Nat :=
  if n < 128 then [n]
  else if n < 2048 then [192 ||| (n >>> 6), 128 ||| (n &&& 63)]
  else if n < 65536 then
    [224 ||| (n >>> 12), 128 ||| ((n >>> 6) &&& 63), 128 ||| (n &&& 63)]
  else
    [240 ||| (n >>> 18), 128 ||| ((n >>> 12) &&& 63),
     128 ||| ((n >>> 6) &&& 63), 128 ||| (n &&& 63)]

/-- `s.encode("utf-8")`. -/
def utf8Bytes (s : PyStr) : List Nat :=
  s.flatMap (fun c => utf8Char c.toNat)

/-- Fuel-indexed chunking of a list into pieces of `sz + 1` elements. -/
def chunksF (sz : Nat) : Nat → List Nat → List (List Nat)
  | _, [] => []
  | 0, l => [l]
  | fuel + 1, l => l.take (sz + 1) :: chunksF sz fuel (l.drop (sz + 1))

/-- Chunk a list into pieces of `sz + 1` elements (last piece may be short). -/
def chunks (sz : Nat) (l : List Nat) : List (List Nat) :=
  chunksF sz l.length l

/-- A big-endian 32-bit word from 4 bytes. -/
def beWord (l : List Nat) : Nat :=
  l.foldl (fun acc b => acc * 256 + b) 0

/-- Message-schedule extension: append `k` more words to `w`. -/
def extendW : Nat → List Nat → List Nat
  | 0, w => w
  | k + 1, w =>
    let n := w.length
    let x := rotl32 ((w.getD (n - 3) 0) ^^^ (w.getD (n - 8) 0) ^^^
      (w.getD (n - 14) 0) ^^^ (w.getD (n - 16) 0)) 1
    extendW k (w ++ [x])

/-- The SHA-1 round function and constant for round `i`. -/
def sha1FK (i b c d : Nat) : Nat × Nat :=
  if i < 20 then ((b &&& c) ||| ((b ^^^ 4294967295) &&& d), 1518500249)
  else if i < 40 then (b ^^^ c ^^^ d, 1859775393)
  else if i < 60 then ((b &&& c) ||| (b &&& d) ||| (c &&& d), 2400959708)
  else (b ^^^ c ^^^ d, 3395469782)

/-- One SHA-1 round, acting on the five-word state. -/
def sha1Round (st : Nat × Nat × Nat × Nat × Nat) (iw : Nat × Nat) :
    Nat × Nat × Nat × Nat × Nat :=
  let (a, b, c, d, e) := st
  let (i, wi) := iw
  let (f, k) := sha1FK i b c d
  let temp := (rotl32 a 5 + f + e + k + wi) % 4294967296
  (temp, a, rotl32 b 30, c, d)

/-- Process one 64-byte block. -/
def sha1Block (h : Nat × Nat × Nat × Nat × Nat) (block : List Nat) :
    Nat × Nat × Nat × Nat × Nat :=
  let w16 := (chunks 3 block).map beWord
  let w80 := extendW 64 w16
  let (h0, h1, h2, h3, h4) := h
  let (a, b, c, d, e) := w80.enum.foldl sha1Round h
  ((h0 + a) % 4294967296, (h1 + b) % 4294967296, (h2 + c) % 4294967296,
   (h3 + d) % 4294967296, (h4 + e) % 4294967296)

/-- SHA-1 of a byte sequence, as a 160-bit natural number. -/
def sha1Nat (msg : List Nat) : Nat :=
  let padded := msg ++ 128 :: (List.replicate ((119 - msg.length % 64) % 64) 0 ++
    bytesBE 8 (msg.length * 8))
  let blocks := chunks 63 padded
  let (h0, h1, h2, h3, h4) :=
    blocks.foldl sha1Block (1732584193, 4023233417, 2562383102, 271733878, 3285377520)
  (((h0 * 4294967296 + h1) * 4294967296 + h2) * 4294967296 + h3) * 4294967296 + h4

/-- The `k`-th lowercase hex digit. -/
def hexDigitChar (k : Nat) : Char :=
  ("0123456789abcdef").data.getD k ('0')

/-- `n` in lowercase hex, exactly `w` digits wide (high digits first). -/
def toHexPad : Nat → Nat → PyStr
  | _, 0 => []
  | n, w + 1 => toHexPad (n / 16) w ++ [hexDigitChar (n % 16)]

/-- `hashlib.sha1(msg).hexdigest()`: 40 lowercase hex characters. -/
def sha1Hex (msg : List Nat) : PyStr :=
  toHexPad (sha1Nat msg) 40

/-! ### The deduplicating build loop -/

/-- One output record of the directory. -/
structure Entry where
  id : PyStr
  name : PyStr
  specialty : PyStr
  contacts : List PyStr
  credentials : List PyStr
  registrationNumbers : List PyStr
  sourceFile : PyStr
  deriving DecidableEq

/-- One raw spreadsheet row, reduced to the five columns the script reads.
`none` models a missing cell (row shorter than the header) or a `None`
value. -/
structure RawRow where
  nameCell : Option PyStr
  contactCell : Option PyStr
  credCell : Option PyStr
  regCell : Option PyStr
  sourceCell : Option PyStr
  deriving DecidableEq

/-- Cell reading with Python truthiness and whitespace normalization, as in
`if idx < len(row) and row[idx] and row[idx].value:
  value = normalize_whitespace(str(row[idx].value))`. -/
def cellNorm : Option PyStr → PyStr
  | some v => if v.isEmpty then [] else normalizeWhitespace v
  | none => []

/-- Cell reading for the source-file column, which is not normalized. -/
def cellRaw : Option PyStr → PyStr
  | some v => if v.isEmpty then [] else v
  | none => []

/-- The accepted data computed from one row by the loop body, before the
identity lookup. -/
structure RowData where
  name : PyStr
  contacts : List PyStr
  credentials : List PyStr
  regNumbers : List PyStr
  specialty : PyStr
  sourceValue : PyStr
  deriving DecidableEq

/-- The extraction-and-acceptance prefix of the loop body: skip a missing
name cell, normalize the name, reject non-doctor names, and normalize and
split the remaining fields. -/
def extractRow (row : RawRow) : Option RowData :=
  match row.nameCell with
  | none => none
  | some v =>
    let name := normalizeWhitespace v
    if looksLikeDoctor name then
      some
        { name := name
          contacts := splitMultiValue (cellNorm row.contactCell)
          credentials := splitMultiValue (cellNorm row.credCell)
          regNumbers := splitMultiValue (cellNorm row.regCell)
          specialty := inferSpecialty [cellNorm row.credCell, cellNorm row.regCell]
          sourceValue := cellRaw row.sourceCell }
    else none

/-- `key_basis = f"{name.lower()}|{reg_numbers[0] if reg_numbers else
source_value.lower()}"`. -/
def keyBasis (name : PyStr) (regNumbers : List PyStr) (sourceValue : PyStr) : PyStr :=
  lowerPy name ++ '|' :: (match regNumbers with
    | r :: _ => r
    | [] => lowerPy sourceValue)

/-- `entry_id = hashlib.sha1(key_basis.encode("utf-8")).hexdigest()[:12]`. -/
def entryIdOf (name : PyStr) (regNumbers : List PyStr) (sourceValue : PyStr) : PyStr :=
  (sha1Hex (utf8Bytes (keyBasis name regNumbers sourceValue))).take 12

/-- The identity key of one accepted row. -/
def rowId (d : RowData) : PyStr :=
  entryIdOf d.name d.regNumbers d.sourceValue

/-- `sorted({*xs, *ys})`: duplicate-free sorted union, lexicographic on
code points. -/
def sortedUnion (xs ys : List PyStr) : List PyStr :=
  ((xs ++ ys).dedup).insertionSort (fun a b => a ≤ b)

/-- First-match association-list lookup, modelling `entries[entry_id]`. -/
def lookupEntry : List (PyStr × Entry) → PyStr → Option Entry
  | [], _ => none
  | (k, e) :: rest, key => if k = key then some e else lookupEntry rest key

/-- In-place update of the first binding of `key`, modelling mutation of the
dict value; insertion order is preserved. -/
def updateEntry : List (PyStr × Entry) → PyStr → (Entry → Entry) → List (PyStr × Entry)
  | [], _, _ => []
  | (k, e) :: rest, key, f =>
    if k = key then (k, f e) :: rest else (k, e) :: updateEntry rest key f

/-- The merge performed when the identity key is already present: union and
sort the three multi-valued fields, leave everything else alone. -/
def mergeInto (d : RowData) (e : Entry) : Entry :=
  { e with
    contacts := sortedUnion e.contacts d.contacts
    credentials := sortedUnion e.credentials d.credentials
    registrationNumbers := sortedUnion e.registrationNumbers d.regNumbers }

/-- A fresh entry for a previously unseen identity key. -/
def newEntry (eid : PyStr) (d : RowData) : Entry :=
  { id := eid
    name := d.name
    specialty := d.specialty
    contacts := d.contacts
    credentials := d.credentials
    registrationNumbers := d.regNumbers
    sourceFile := d.sourceValue }

/-- One iteration of the build loop over `entries`. -/
def step (entries : List (PyStr × Entry)) (row : RawRow) : List (PyStr × Entry) :=
  match extractRow row with
  | none => entries
  | some d =>
    let eid := rowId d
    match lookupEntry entries eid with
    | some _ => updateEntry entries eid (mergeInto d)
    | none => entries ++ [(eid, newEntry eid d)]

/-- The entry mapping after scanning all data rows, in insertion order. -/
def buildEntries (rows : List RawRow) : List (PyStr × Entry) :=
  rows.foldl step []

/-! ### The effectful shell of `build_directory` -/

/-- The externally visible state touched by `build_directory`: the input
spreadsheet (already decoded to rows by the external library; `none` means
the file does not exist) and the output JSON file (`none` means absent). -/
structure FsState where
  numbersFile : Option (List RawRow)
  outputFile : Option (List Entry)
  deriving DecidableEq

/-- `build_directory()`: raise `FileNotFoundError` before touching anything
if the input is absent, otherwise scan the rows and write the entry list.
The second component is the raised error, if any. -/
def buildDirectory (fs : FsState) : FsState × Option PyStr :=
  match fs.numbersFile with
  | none => (fs, some (("Numbers file not found").data))
  | some rows =>
    ({ fs with outputFile := some ((buildEntries rows).map Prod.snd) }, none)

/-! ### Concrete rows used as witnesses -/

/-- A row for `"John Doe"` with registration `R1`, contact `a@x.com`, source
file `f1`. -/
def rowA : RawRow :=
  { nameCell := some (("John Doe").data), contactCell := some (("a@x.com").data),
    credCell := none, regCell := some (("R1").data), sourceCell := some (("f1").data) }

/-- Same doctor and registration as `rowA` but a different contact and a
different source file. -/
def rowB : RawRow :=
  { nameCell := some (("John Doe").data), contactCell := some (("b@x.com").data),
    credCell := none, regCell := some (("R1").data), sourceCell := some (("f2").data) }

/-- A single row whose contact field splits into two fragments in
non-sorted order. -/
def rowC : RawRow :=
  { nameCell := some (("Jane Roe").data), contactCell := some (("b; a").data),
    credCell := none, regCell := none, sourceCell := some (("f3").data) }

/-- The row data the loop computes for `rowA`. -/
def rowDataA : RowData :=
  { name := ("John Doe").data, contacts := [("a@x.com").data], credentials := [],
    regNumbers := [("R1").data], specialty := ("General Practice").data,
    sourceValue := ("f1").data }

/-- The row data the loop computes for `rowB`. -/
def rowDataB : RowData :=
  { name := ("John Doe").data, contacts := [("b@x.com").data], credentials := [],
    regNumbers := [("R1").data], specialty := ("General Practice").data,
    sourceValue := ("f2").data }

/-- `rowDataA` with a different contact set: same identity triple. -/
def rowDataA2 : RowData :=
  { rowDataA with contacts := [("z@x.com").data] }

/-- The entry created for `rowDataA` when its key is new. -/
def entryA : Entry :=
  newEntry (rowId rowDataA) rowDataA

/-- The key-entry pair that `rowA` alone produces (the key is the first 12
hex characters of `sha1("john doe|R1")`). -/
def idPairA : PyStr × Entry :=
  (("6d6868a3af68").data,
   { id := ("6d6868a3af68").data, name := ("John Doe").data,
     specialty := ("General Practice").data, contacts := [("a@x.com").data],
     credentials := [], registrationNumbers := [("R1").data],
     sourceFile := ("f1").data })

/-- A state with no input spreadsheet and no output file. -/
def fs0 : FsState :=
  { numbersFile := none, outputFile := none }

/-! ### Lemmas about the splitter -/

lemma splitIfF_fuel (p : Char → Bool) :
    ∀ (f1 : Nat) (s : PyStr) (f2 : Nat), s.length ≤ f1 → s.length ≤ f2 →
      splitIfF p f1 s = splitIfF p f2 s := by
  intro f1
  induction f1 with
  | zero =>
    intro s f2 h1 _
    have hs : s = [] := List.eq_nil_of_length_eq_zero (Nat.le_zero.mp h1)
    subst hs
    cases f2 <;> rfl
  | succ g1 ih =>
    intro s f2 h1 h2
    cases s with
    | nil => cases f2 <;> rfl
    | cons c s' =>
      cases f2 with
      | zero => simp at h2
      | succ g2 =>
        simp only [splitIfF]
        cases hdw : (c :: s').dropWhile (fun c => ¬ p c) with
        | nil => rfl
        | cons x rest =>
          have hlen : (x :: rest).length ≤ (c :: s').length :=
            hdw ▸ (List.dropWhile_sublist _).length_le
          have hr : (rest.dropWhile p).length ≤ rest.length :=
            (List.dropWhile_sublist _).length_le
          simp only [List.length_cons] at hlen h1 h2
          have h3 := ih (rest.dropWhile p) g2 (by omega) (by omega)
          dsimp only
          rw [h3]

lemma splitIf_eq (p : Char → Bool) (s : PyStr) :
    splitIf p s =
      match s.dropWhile (fun c => ¬ p c) with
      | [] => [s.takeWhile (fun c => ¬ p c)]
      | _ :: rest => s.takeWhile (fun c => ¬ p c) :: splitIf p (rest.dropWhile p) := by
  cases s with
  | nil => rfl
  | cons c s' =>
    show splitIfF p (s'.length + 1) (c :: s') = _
    simp only [splitIfF]
    cases hdw : (c :: s').dropWhile (fun c => ¬ p c) with
    | nil => rfl
    | cons x rest =>
      have hlen : (x :: rest).length ≤ (c :: s').length :=
        hdw ▸ (List.dropWhile_sublist _).length_le
      have hr : (rest.dropWhile p).length ≤ rest.length :=
        (List.dropWhile_sublist _).length_le
      simp only [List.length_cons] at hlen
      dsimp only
      rw [splitIfF_fuel p s'.length (rest.dropWhile p) (rest.dropWhile p).length
        (by omega) le_rfl]
      rfl

/-- Every fragment produced by `splitIf` is run-free and a sublist of the
input. -/
lemma splitIf_mem_spec (p : Char → Bool) :
    ∀ (n : Nat) (s : PyStr), s.length ≤ n →
      ∀ t ∈ splitIf p s, (∀ c ∈ t, p c = false) ∧ t.Sublist s := by
  intro n
  induction n with
  | zero =>
    intro s h t ht
    have hs : s = [] := List.eq_nil_of_length_eq_zero (Nat.le_zero.mp h)
    subst hs
    have : t = [] := by
      rw [splitIf_eq] at ht
      simpa using ht
    subst this
    simp
  | succ m ih =>
    intro s hs t ht
    rw [splitIf_eq] at ht
    cases hdw : s.dropWhile (fun c => ¬ p c) with
    | nil =>
      rw [hdw] at ht
      simp only [List.mem_singleton] at ht
      subst ht
      refine ⟨fun c hc => ?_, List.takeWhile_sublist _⟩
      have := List.mem_takeWhile_imp hc
      simpa using this
    | cons x rest =>
      rw [hdw] at ht
      simp only [List.mem_cons] at ht
      rcases ht with ht | ht
      · subst ht
        refine ⟨fun c hc => ?_, List.takeWhile_sublist _⟩
        have := List.mem_takeWhile_imp hc
        simpa using this
      · have hsub1 : (x :: rest).Sublist s := hdw ▸ List.dropWhile_sublist _
        have hsub2 : rest.Sublist s :=
          ((List.sublist_cons_self x rest).trans hsub1)
        have hsub3 : (rest.dropWhile p).Sublist s :=
          (List.dropWhile_sublist _).trans hsub2
        have hlen : (rest.dropWhile p).length ≤ m := by
          have h1 : (x :: rest).length ≤ s.length := hsub1.length_le
          have h2 : (rest.dropWhile p).length ≤ rest.length :=
            (List.dropWhile_sublist _).length_le
          simp only [List.length_cons] at h1
          omega
        obtain ⟨hfree, hsl⟩ := ih (rest.dropWhile p) hlen t ht
        exact ⟨hfree, hsl.trans hsub3⟩

lemma splitIf_ne_nil (p : Char → Bool) (s : PyStr) : splitIf p s ≠ [] := by
  rw [splitIf_eq]
  cases s.dropWhile (fun c => ¬ p c) <;> simp

/-! ### Lemmas about words and joining -/

lemma takeWhile_all (q : Char → Bool) (w : PyStr) (h : ∀ c ∈ w, q c = true) :
    w.takeWhile q = w := by
  induction w with
  | nil => rfl
  | cons c w' ih =>
    simp only [List.takeWhile_cons, h c (List.mem_cons_self c w')]
    rw [ih (fun c hc => h c (List.mem_cons_of_mem _ hc))]
    simp

lemma takeWhile_append_all (q : Char → Bool) (w r : PyStr)
    (h : ∀ c ∈ w, q c = true) :
    (w ++ r).takeWhile q = w ++ r.takeWhile q := by
  induction w with
  | nil => rfl
  | cons c w' ih =>
    simp only [List.cons_append, List.takeWhile_cons, h c (List.mem_cons_self c w')]
    rw [ih (fun c hc => h c (List.mem_cons_of_mem _ hc))]
    simp

lemma dropWhile_all (q : Char → Bool) (w : PyStr) (h : ∀ c ∈ w, q c = true) :
    w.dropWhile q = [] := by
  induction w with
  | nil => rfl
  | cons c w' ih =>
    simp only [List.dropWhile_cons, h c (List.mem_cons_self c w')]
    exact ih (fun c hc => h c (List.mem_cons_of_mem _ hc))

lemma dropWhile_append_all (q : Char → Bool) (w r : PyStr)
    (h : ∀ c ∈ w, q c = true) :
    (w ++ r).dropWhile q = r.dropWhile q := by
  induction w with
  | nil => rfl
  | cons c w' ih =>
    simp only [List.cons_append, List.dropWhile_cons, h c (List.mem_cons_self c w')]
    exact ih (fun c hc => h c (List.mem_cons_of_mem _ hc))

lemma dropWhile_head_false (q : Char → Bool) (c : Char) (t : PyStr)
    (h : q c = false) : (c :: t).dropWhile q = c :: t := by
  simp [List.dropWhile_cons, h]

lemma dropWhile_nil_all (q : Char → Bool) :
    ∀ s : PyStr, s.dropWhile q = [] → ∀ c ∈ s, q c = true := by
  intro s
  induction s with
  | nil => intro _ c hc; cases hc
  | cons a t ih =>
    intro h c hc
    by_cases ha : q a = true
    · rw [List.dropWhile_cons, if_pos ha] at h
      rcases List.mem_cons.mp hc with rfl | hct
      · exact ha
      · exact ih h c hct
    · rw [List.dropWhile_cons, if_neg ha] at h
      cases h

/-- Every word of `pyWords` is non-empty and whitespace-free. -/
lemma pyWords_mem (s : PyStr) :
    ∀ w ∈ pyWords s, w ≠ [] ∧ ∀ c ∈ w, isPySpace c = false := by
  intro w hw
  unfold pyWords at hw
  rw [List.mem_filter] at hw
  obtain ⟨hmem, hne⟩ := hw
  refine ⟨by simpa using hne, ?_⟩
  exact (splitIf_mem_spec isPySpace s.length s le_rfl w hmem).1

lemma joinSp_cons_cons (w x : PyStr) (t : List PyStr) :
    joinSp (w :: x :: t) = w ++ ' ' :: joinSp (x :: t) := rfl

lemma joinSp_ne_nil (w : PyStr) (ws : List PyStr) (hw : w ≠ []) :
    joinSp (w :: ws) ≠ [] := by
  cases ws with
  | nil => simpa [joinSp] using hw
  | cons x t => simp [joinSp_cons_cons]

/-- Splitting undoes joining: `" ".join(ws).split() == ws` for non-empty
whitespace-free words. -/
lemma pyWords_joinSp :
    ∀ ws : List PyStr, (∀ w ∈ ws, w ≠ [] ∧ ∀ c ∈ w, isPySpace c = false) →
      pyWords (joinSp ws) = ws := by
  intro ws
  induction ws with
  | nil => intro _; rfl
  | cons w ws' ih =>
    intro h
    obtain ⟨hwne, hwfree⟩ := h w (List.mem_cons_self w ws')
    have hwtrue : ∀ c ∈ w, (fun c => ¬ isPySpace c : Char → Bool) c = true := by
      intro c hc
      simp [hwfree c hc]
    cases ws' with
    | nil =>
      show pyWords (joinSp [w]) = [w]
      have hj : joinSp [w] = w := rfl
      rw [hj]
      unfold pyWords
      rw [splitIf_eq, dropWhile_all _ w hwtrue]
      simp only [takeWhile_all _ w hwtrue]
      simp [List.filter_cons, hwne]
    | cons w2 t =>
      have hj : joinSp (w :: w2 :: t) = w ++ ' ' :: joinSp (w2 :: t) := rfl
      obtain ⟨hw2ne, hw2free⟩ := h w2 (List.mem_cons_of_mem _ (List.mem_cons_self w2 t))
      obtain ⟨c2, J', hJ⟩ : ∃ c2 J', joinSp (w2 :: t) = c2 :: J' ∧ isPySpace c2 = false := by
        cases w2 with
        | nil => exact absurd rfl hw2ne
        | cons c2 w2' =>
          cases t with
          | nil => exact ⟨c2, w2', rfl, hw2free c2 (List.mem_cons_self _ _)⟩
          | cons x u =>
            refine ⟨c2, w2' ++ ' ' :: joinSp (x :: u), ?_, hw2free c2 (List.mem_cons_self _ _)⟩
            rw [joinSp_cons_cons]
            rfl
      obtain ⟨hJeq, hc2⟩ := hJ
      unfold pyWords
      rw [hj, splitIf_eq]
      rw [dropWhile_append_all _ w _ hwtrue]
      rw [takeWhile_append_all _ w _ hwtrue]
      have hsp : isPySpace ' ' = true := rfl
      have hdw : (' ' :: joinSp (w2 :: t)).dropWhile (fun c => ¬ isPySpace c) =
          ' ' :: joinSp (w2 :: t) := by
        apply dropWhile_head_false
        simp [hsp]
      rw [hdw]
      have htw : (' ' :: joinSp (w2 :: t)).takeWhile (fun c => ¬ isPySpace c) = [] := by
        simp [List.takeWhile_cons, hsp]
      rw [htw]
      dsimp only
      have hdw2 : (joinSp (w2 :: t)).dropWhile isPySpace = joinSp (w2 :: t) := by
        rw [hJeq]
        exact dropWhile_head_false _ _ _ hc2
      rw [hdw2, List.append_nil]
      have hrec : (splitIf isPySpace (joinSp (w2 :: t))).filter (fun t => ¬ t.isEmpty) =
          pyWords (joinSp (w2 :: t)) := rfl
      rw [List.filter_cons, if_pos (by simpa [List.isEmpty_iff] using hwne)]
      rw [hrec, ih (fun x hx => h x (List.mem_cons_of_mem _ hx))]

/-- If any character of `s` is not whitespace, the normalized form is
non-empty. -/
lemma pyWords_nil_imp :
    ∀ (n : Nat) (s : PyStr), s.length ≤ n → pyWords s = [] →
      ∀ c ∈ s, isPySpace c = true := by
  intro n
  induction n with
  | zero =>
    intro s h _ c hc
    have hs : s = [] := List.eq_nil_of_length_eq_zero (Nat.le_zero.mp h)
    subst hs
    cases hc
  | succ m ih =>
    intro s hs h c hc
    unfold pyWords at h
    rw [splitIf_eq] at h
    cases hdw : s.dropWhile (fun c => ¬ isPySpace c) with
    | nil =>
      rw [hdw] at h
      dsimp only at h
      have hall : ∀ x ∈ s, isPySpace x = false := fun x hx => by
        simpa using dropWhile_nil_all _ s hdw x hx
      have htok : s.takeWhile (fun c => ¬ isPySpace c) = s :=
        takeWhile_all _ s (fun x hx => by simp [hall x hx])
      rw [htok, List.filter_cons] at h
      by_cases hse : s = []
      · subst hse; cases hc
      · rw [if_pos (by simpa [List.isEmpty_iff] using hse)] at h
        cases h
    | cons x rest =>
      rw [hdw] at h
      dsimp only at h
      rw [List.filter_cons] at h
      by_cases htok : s.takeWhile (fun c => ¬ isPySpace c) = []
      · rw [htok] at h
        simp only [List.isEmpty_nil] at h
        rw [if_neg (by simp)] at h
        have hseq : s = x :: rest := by
          have := List.takeWhile_append_dropWhile
            (p := fun c => ¬ isPySpace c) (l := s)
          rw [htok, hdw] at this
          simpa using this.symm
        have hx : isPySpace x = true := by
          have h1 : s.takeWhile (fun c => ¬ isPySpace c) = [] := htok
          rw [hseq] at h1
          rw [List.takeWhile_cons] at h1
          by_cases hxs : isPySpace x = true
          · exact hxs
          · rw [if_pos (by simp [hxs])] at h1
            cases h1
        have hrest : ∀ c ∈ rest, isPySpace c = true := by
          intro c hcr
          have hsplit := List.takeWhile_append_dropWhile (p := isPySpace) (l := rest)
          rw [← hsplit] at hcr
          rcases List.mem_append.mp hcr with hcm | hcm
          · exact List.mem_takeWhile_imp hcm
          · have hlen : (rest.dropWhile isPySpace).length ≤ m := by
              have h1 : (x :: rest).length ≤ s.length :=
                hdw ▸ (List.dropWhile_sublist _).length_le
              have h2 : (rest.dropWhile isPySpace).length ≤ rest.length :=
                (List.dropWhile_sublist _).length_le
              simp only [List.length_cons] at h1
              omega
            exact ih (rest.dropWhile isPySpace) hlen h c hcm
        rw [hseq] at hc
        rcases List.mem_cons.mp hc with rfl | hcr
        · exact hx
        · exact hrest c hcr
      · rw [if_pos (by simpa using htok)] at h
        cases h

lemma normalizeWhitespace_ne_nil (s : PyStr) (c : Char) (hc : c ∈ s)
    (hsp : isPySpace c = false) : normalizeWhitespace s ≠ [] := by
  intro h
  have hws : pyWords s = [] := by
    cases hpw : pyWords s with
    | nil => rfl
    | cons w l =>
      have hwne := (pyWords_mem s w (hpw ▸ List.mem_cons_self w l)).1
      have : normalizeWhitespace s ≠ [] := by
        unfold normalizeWhitespace
        rw [hpw]
        exact joinSp_ne_nil w l hwne
      exact absurd h this
  have := pyWords_nil_imp s.length s le_rfl hws c hc
  rw [this] at hsp
  cases hsp

/-! ### Character-level facts -/

lemma char_toNat_inj {c d : Char} (h : c.toNat = d.toNat) : c = d :=
  Char.ext (UInt32.eq_of_val_eq (Fin.ext h))

lemma char_toLowerPy_toNat (c : Char) :
    (toLowerPy c).toNat =
      if 65 ≤ c.toNat ∧ c.toNat ≤ 90 then c.toNat + 32 else c.toNat := by
  unfold toLowerPy
  split
  · next h =>
    show (Char.ofNat (c.toNat + 32)).toNat = _
    unfold Char.ofNat
    rw [dif_pos (Or.inl (by omega))]
    rfl
  · rfl

lemma isPySpace_toLowerPy (c : Char) : isPySpace (toLowerPy c) = isPySpace c := by
  unfold isPySpace
  rw [char_toLowerPy_toNat]
  split
  · next h =>
    rw [Bool.eq_iff_iff]
    simp only [Bool.or_eq_true, Bool.and_eq_true, decide_eq_true_eq]
    omega
  · rfl

lemma isDigitPy_toLowerPy (c : Char) : isDigitPy (toLowerPy c) = isDigitPy c := by
  unfold isDigitPy
  rw [char_toLowerPy_toNat]
  split
  · next h =>
    rw [Bool.eq_iff_iff]
    simp only [Bool.and_eq_true, decide_eq_true_eq]
    omega
  · rfl

lemma isPySpace_eq_false_of (c : Char) (h1 : 33 ≤ c.toNat) (h2 : c.toNat ≤ 126) :
    isPySpace c = false := by
  unfold isPySpace
  simp
  omega

lemma isSepChar_eq_false_of (c : Char) (h45 : c.toNat ≠ 45) (h44 : c.toNat ≠ 44)
    (hsp : isPySpace c = false) : isSepChar c = false := by
  unfold isSepChar
  rw [decide_eq_false (fun he => h45 (by rw [he]; rfl)),
    decide_eq_false (fun he => h44 (by rw [he]; rfl)), hsp]
  rfl

lemma isSepChar_toLowerPy (c : Char) : isSepChar (toLowerPy c) = isSepChar c := by
  by_cases h : 65 ≤ c.toNat ∧ c.toNat ≤ 90
  · have h1 := char_toLowerPy_toNat c
    rw [if_pos h] at h1
    rw [isSepChar_eq_false_of (toLowerPy c) (by omega) (by omega)
      (isPySpace_eq_false_of _ (by omega) (by omega))]
    rw [isSepChar_eq_false_of c (by omega) (by omega)
      (isPySpace_eq_false_of _ (by omega) (by omega))]
  · unfold toLowerPy
    rw [if_neg h]

lemma toLowerPy_of_not (x : Char) (h : ¬ (65 ≤ x.toNat ∧ x.toNat ≤ 90)) :
    toLowerPy x = x := by
  unfold toLowerPy
  rw [if_neg h]

lemma toLowerPy_idem (c : Char) : toLowerPy (toLowerPy c) = toLowerPy c := by
  by_cases h : 65 ≤ c.toNat ∧ c.toNat ≤ 90
  · have h1 : (toLowerPy c).toNat = c.toNat + 32 := by
      rw [char_toLowerPy_toNat, if_pos h]
    exact toLowerPy_of_not (toLowerPy c) (by omega)
  · rw [toLowerPy_of_not c h]
    exact toLowerPy_of_not c h

/-! ### The substring test -/

lemma isPrefText_iff : ∀ (n h : PyStr), isPrefText n h = true ↔ n <+: h := by
  intro n
  induction n with
  | nil =>
    intro h
    simp [isPrefText, List.nil_prefix]
  | cons a xs ih =>
    intro h
    cases h with
    | nil => simp [isPrefText, List.prefix_nil]
    | cons b ys => simp [isPrefText, List.cons_prefix_cons, ih ys]

lemma subText_iff (n : PyStr) : ∀ h : PyStr, subText n h = true ↔ n <:+: h := by
  intro h
  induction h with
  | nil => simp [subText, List.isEmpty_iff, List.infix_nil]
  | cons c rest ih => simp [subText, isPrefText_iff, ih, List.infix_cons_iff]

/-! ### Stripping -/

lemma mem_dropTrailing (p : Char → Bool) (s : PyStr) (c : Char)
    (h : c ∈ dropTrailing p s) : c ∈ s := by
  unfold dropTrailing at h
  rw [List.mem_reverse] at h
  have h2 : c ∈ s.reverse := (List.dropWhile_sublist _).subset h
  rwa [List.mem_reverse] at h2

lemma mem_stripSpaceSemi (s : PyStr) (c : Char) (h : c ∈ stripSpaceSemi s) :
    c ∈ s := by
  unfold stripSpaceSemi at h
  exact (List.dropWhile_sublist _).subset (mem_dropTrailing _ _ _ h)

lemma dropTrailing_isPre (p : Char → Bool) (s : PyStr) : dropTrailing p s <+: s := by
  unfold dropTrailing
  exact List.reverse_suffix.mp (by rw [List.reverse_reverse]; exact List.dropWhile_suffix p)

lemma dropWhile_head_false_of (q : Char → Bool) :
    ∀ (s : PyStr) (c : Char) (r : PyStr), s.dropWhile q = c :: r → q c = false := by
  intro s
  induction s with
  | nil => intro c r h; cases h
  | cons a t ih =>
    intro c r h
    rw [List.dropWhile_cons] at h
    split at h
    · exact ih c r h
    · next hqa =>
      obtain ⟨rfl, -⟩ := List.cons.inj h
      simpa using hqa

lemma stripSpaceSemi_head (s : PyStr) (h : stripSpaceSemi s ≠ []) :
    ∃ c t, stripSpaceSemi s = c :: t ∧ (c = ' ' || c = ';') = false ∧ c ∈ s := by
  cases hu : s.dropWhile (fun c => c = ' ' || c = ';') with
  | nil =>
    exfalso
    apply h
    show dropTrailing _ (s.dropWhile _) = []
    rw [hu]
    rfl
  | cons c0 u' =>
    have hq : (c0 = ' ' || (c0 = ';' : Bool)) = false := dropWhile_head_false_of _ s c0 u' hu
    have hc0s : c0 ∈ s := (List.dropWhile_sublist _).subset (hu ▸ List.mem_cons_self c0 u')
    have hpre : stripSpaceSemi s <+: c0 :: u' := by
      show dropTrailing _ (s.dropWhile _) <+: c0 :: u'
      rw [hu]
      exact dropTrailing_isPre _ _
    cases hd : stripSpaceSemi s with
    | nil => exact absurd hd h
    | cons d ds =>
      rw [hd] at hpre
      obtain ⟨t', ht'⟩ := hpre
      rw [List.cons_append] at ht'
      obtain ⟨rfl, -⟩ := List.cons.inj ht'
      exact ⟨d, ds, rfl, hq, hc0s⟩

/-- The `split_multi_value` elements are non-empty whenever every
whitespace character of the input is a plain space or a newline. -/
lemma splitMultiValue_ne_nil (value : PyStr)
    (hval : ∀ c ∈ value, isPySpace c = true → c = ' ' ∨ c = '\n') :
    ∀ x ∈ splitMultiValue value, x ≠ [] := by
  intro x hx
  unfold splitMultiValue at hx
  split at hx
  · cases hx
  · rw [List.mem_map] at hx
    obtain ⟨part, hpmem, hxeq⟩ := hx
    rw [List.mem_filter] at hpmem
    obtain ⟨hpart, hne⟩ := hpmem
    have hne' : stripSpaceSemi part ≠ [] := by simpa [List.isEmpty_iff] using hne
    obtain ⟨c0, t, hct, hq, hc0p⟩ := stripSpaceSemi_head part hne'
    have hfree := (splitIf_mem_spec _ value.length value le_rfl part hpart).1 c0 hc0p
    have hsubl := (splitIf_mem_spec _ value.length value le_rfl part hpart).2
    have hc0v : c0 ∈ value := hsubl.subset hc0p
    have hns : c0 ≠ ';' ∧ c0 ≠ '\n' := by
      constructor <;> intro he <;> rw [he] at hfree <;> simp at hfree
    have hnsp : c0 ≠ ' ' := by
      intro he
      rw [he] at hq
      simp at hq
    have hsp0 : isPySpace c0 = false := by
      cases hps : isPySpace c0 with
      | false => rfl
      | true =>
        rcases hval c0 hc0v hps with he | he
        · exact absurd he hnsp
        · exact absurd he hns.2
    rw [← hxeq]
    exact normalizeWhitespace_ne_nil (stripSpaceSemi part) c0
      (hct ▸ List.mem_cons_self c0 t) hsp0

/-! ### Commutation of the pipeline with lower-casing -/

lemma takeWhile_map_comm (f : Char → Char) (p : Char → Bool)
    (hp : ∀ c, p (f c) = p c) :
    ∀ s : PyStr, (s.map f).takeWhile p = (s.takeWhile p).map f := by
  intro s
  induction s with
  | nil => rfl
  | cons c t ih =>
    simp only [List.map_cons, List.takeWhile_cons, hp c]
    cases hpc : p c with
    | false => simp
    | true => simp [ih]

lemma dropWhile_map_comm (f : Char → Char) (p : Char → Bool)
    (hp : ∀ c, p (f c) = p c) :
    ∀ s : PyStr, (s.map f).dropWhile p = (s.dropWhile p).map f := by
  intro s
  induction s with
  | nil => rfl
  | cons c t ih =>
    simp only [List.map_cons, List.dropWhile_cons, hp c]
    cases hpc : p c with
    | false => simp
    | true => simp [ih]

lemma splitIf_map_comm (f : Char → Char) (p : Char → Bool)
    (hp : ∀ c, p (f c) = p c) :
    ∀ (n : Nat) (s : PyStr), s.length ≤ n →
      splitIf p (s.map f) = (splitIf p s).map (List.map f) := by
  intro n
  induction n with
  | zero =>
    intro s h
    have hs : s = [] := List.eq_nil_of_length_eq_zero (Nat.le_zero.mp h)
    subst hs
    rfl
  | succ m ih =>
    intro s hs
    rw [splitIf_eq p (s.map f), splitIf_eq p s]
    rw [dropWhile_map_comm f _ (fun c => by simp [hp c]) s,
      takeWhile_map_comm f _ (fun c => by simp [hp c]) s]
    cases hdw : s.dropWhile (fun c => ¬ p c) with
    | nil => rfl
    | cons x rest =>
      dsimp only [List.map_cons]
      rw [dropWhile_map_comm f p hp rest]
      have hlen : (rest.dropWhile p).length ≤ m := by
        have h1 : (x :: rest).length ≤ s.length :=
          hdw ▸ (List.dropWhile_sublist _).length_le
        have h2 : (rest.dropWhile p).length ≤ rest.length :=
          (List.dropWhile_sublist _).length_le
        simp only [List.length_cons] at h1
        omega
      rw [ih (rest.dropWhile p) hlen]

lemma isEmpty_map (f : Char → Char) (t : PyStr) :
    (t.map f).isEmpty = t.isEmpty := by
  cases t <;> rfl

lemma pyWords_map_lower (s : PyStr) :
    pyWords (lowerPy s) = (pyWords s).map lowerPy := by
  unfold pyWords lowerPy
  rw [splitIf_map_comm toLowerPy isPySpace isPySpace_toLowerPy s.length s le_rfl]
  rw [List.filter_map]
  congr 1
  apply List.filter_congr
  intro t _
  simp [Function.comp, isEmpty_map]

lemma joinSp_map_lower (ws : List PyStr) :
    joinSp (ws.map lowerPy) = lowerPy (joinSp ws) := by
  induction ws with
  | nil => rfl
  | cons w ws' ih =>
    cases ws' with
    | nil => rfl
    | cons x t =>
      show joinSp (lowerPy w :: lowerPy x :: t.map lowerPy) = _
      rw [joinSp_cons_cons]
      show lowerPy w ++ ' ' :: joinSp (List.map lowerPy (x :: t)) = _
      rw [ih]
      unfold lowerPy
      rw [joinSp_cons_cons w x t, List.map_append, List.map_cons]
      have hsp : toLowerPy ' ' = ' ' := by decide
      rw [hsp]

lemma normalizeWhitespace_lower (s : PyStr) :
    normalizeWhitespace (lowerPy s) = lowerPy (normalizeWhitespace s) := by
  unfold normalizeWhitespace
  rw [pyWords_map_lower, joinSp_map_lower]

lemma lowerPy_idem (s : PyStr) : lowerPy (lowerPy s) = lowerPy s := by
  unfold lowerPy
  rw [List.map_map]
  apply List.map_congr_left
  intro c _
  exact toLowerPy_idem c

lemma nameTokens_map_lower (s : PyStr) :
    nameTokens (lowerPy s) = (nameTokens s).map lowerPy := by
  unfold nameTokens lowerPy
  rw [splitIf_map_comm toLowerPy isSepChar isSepChar_toLowerPy s.length s le_rfl]
  rw [List.filter_map]
  congr 1
  apply List.filter_congr
  intro t _
  simp [Function.comp, isEmpty_map]

lemma any_digit_lower (s : PyStr) :
    (lowerPy s).any isDigitPy = s.any isDigitPy := by
  unfold lowerPy
  rw [List.any_map, Bool.eq_iff_iff]
  simp only [List.any_eq_true, Function.comp]
  constructor
  · rintro ⟨c, hc, h⟩
    exact ⟨c, hc, by rwa [isDigitPy_toLowerPy] at h⟩
  · rintro ⟨c, hc, h⟩
    exact ⟨c, hc, by rwa [isDigitPy_toLowerPy]⟩

/-! ### The specialty scan as a first-match search -/

lemma findSpecialty_eq_find (combined : PyStr) :
    ∀ l : List (PyStr × PyStr),
      findSpecialty l combined =
        ((l.find? (fun p => subText p.1 combined)).map Prod.snd).getD
          (("General Practice").data) := by
  intro l
  induction l with
  | nil => rfl
  | cons p rest ih =>
    obtain ⟨kw, sp⟩ := p
    show (if subText kw combined then sp else findSpecialty rest combined) = _
    by_cases hs : subText kw combined = true
    · rw [if_pos hs]
      simp [List.find?, hs]
    · rw [if_neg hs]
      rw [Bool.not_eq_true] at hs
      simp [List.find?, hs, ih]

/-! ### The hex digest -/

lemma toHexPad_length : ∀ (w n : Nat), (toHexPad n w).length = w := by
  intro w
  induction w with
  | zero => intro n; rfl
  | succ v ih =>
    intro n
    show (toHexPad (n / 16) v ++ [hexDigitChar (n % 16)]).length = v + 1
    rw [List.length_append, ih (n / 16)]
    rfl

lemma hexDigitChar_mem_of_lt (k : Nat) (h : k < 16) :
    hexDigitChar k ∈ ("0123456789abcdef").data := by
  interval_cases k <;> decide

lemma toHexPad_mem : ∀ (w n : Nat) (c : Char), c ∈ toHexPad n w →
    c ∈ ("0123456789abcdef").data := by
  intro w
  induction w with
  | zero => intro n c hc; cases hc
  | succ v ih =>
    intro n c hc
    rcases List.mem_append.mp hc with hc | hc
    · exact ih (n / 16) c hc
    · rw [List.mem_singleton] at hc
      subst hc
      exact hexDigitChar_mem_of_lt (n % 16) (Nat.mod_lt n (by omega))

lemma sha1Hex_length (msg : List Nat) : (sha1Hex msg).length = 40 :=
  toHexPad_length 40 (sha1Nat msg)

lemma entryIdOf_length (name : PyStr) (regNumbers : List PyStr) (sourceValue : PyStr) :
    (entryIdOf name regNumbers sourceValue).length = 12 := by
  unfold entryIdOf
  rw [List.length_take, sha1Hex_length]
  rfl

lemma entryIdOf_hex (name : PyStr) (regNumbers : List PyStr) (sourceValue : PyStr) :
    ∀ c ∈ entryIdOf name regNumbers sourceValue, c ∈ ("0123456789abcdef").data := by
  intro c hc
  unfold entryIdOf at hc
  exact toHexPad_mem 40 _ c (List.take_subset 12 _ hc)

/-! ### The sorted deduplicated union -/

lemma sortedUnion_sorted (xs ys : List PyStr) :
    List.Sorted (fun a b : PyStr => a ≤ b) (sortedUnion xs ys) :=
  List.sorted_insertionSort _ _

lemma sortedUnion_nodup (xs ys : List PyStr) : (sortedUnion xs ys).Nodup :=
  ((List.perm_insertionSort _ _).nodup_iff).mpr (List.nodup_dedup _)

lemma sortedUnion_comm (xs ys : List PyStr) :
    sortedUnion xs ys = sortedUnion ys xs := by
  apply List.eq_of_perm_of_sorted ?_ (sortedUnion_sorted xs ys) (sortedUnion_sorted ys xs)
  exact ((List.perm_insertionSort _ _).trans
    (List.perm_append_comm.dedup)).trans ((List.perm_insertionSort _ _).symm)

lemma mem_sortedUnion (xs ys : List PyStr) (x : PyStr) :
    x ∈ sortedUnion xs ys ↔ x ∈ xs ∨ x ∈ ys := by
  unfold sortedUnion
  rw [(List.perm_insertionSort _ _).mem_iff, List.mem_dedup, List.mem_append]

/-! ### The entry mapping -/

lemma lookupEntry_update_self :
    ∀ (l : List (PyStr × Entry)) (key : PyStr) (f : Entry → Entry) (e : Entry),
      lookupEntry l key = some e →
      lookupEntry (updateEntry l key f) key = some (f e) := by
  intro l
  induction l with
  | nil => intro key f e h; cases h
  | cons p rest ih =>
    intro key f e h
    obtain ⟨k0, e0⟩ := p
    by_cases hk : k0 = key
    · show lookupEntry (if k0 = key then (k0, f e0) :: rest else _) key = _
      rw [if_pos hk]
      show (if k0 = key then some (f e0) else lookupEntry rest key) = _
      rw [if_pos hk]
      have h0 : lookupEntry ((k0, e0) :: rest) key = some e0 := by
        show (if k0 = key then some e0 else _) = _
        rw [if_pos hk]
      rw [h0] at h
      obtain rfl := Option.some.inj h
      rfl
    · show lookupEntry (if k0 = key then _ else (k0, e0) :: updateEntry rest key f) key = _
      rw [if_neg hk]
      show (if k0 = key then some e0 else lookupEntry (updateEntry rest key f) key) = _
      rw [if_neg hk]
      apply ih
      have h0 : lookupEntry ((k0, e0) :: rest) key = lookupEntry rest key := by
        show (if k0 = key then some e0 else _) = _
        rw [if_neg hk]
      rw [h0] at h
      exact h

lemma lookupEntry_update_other :
    ∀ (l : List (PyStr × Entry)) (key : PyStr) (f : Entry → Entry) (k : PyStr),
      k ≠ key → lookupEntry (updateEntry l key f) k = lookupEntry l k := by
  intro l
  induction l with
  | nil => intro key f k _; rfl
  | cons p rest ih =>
    intro key f k hk
    obtain ⟨k0, e0⟩ := p
    by_cases h0 : k0 = key
    · show lookupEntry (if k0 = key then (k0, f e0) :: rest else _) k = _
      rw [if_pos h0]
      show (if k0 = k then some (f e0) else lookupEntry rest k) = _
      have hne : k0 ≠ k := fun he => hk (he ▸ h0)
      rw [if_neg hne]
      show _ = (if k0 = k then some e0 else lookupEntry rest k)
      rw [if_neg hne]
    · show lookupEntry (if k0 = key then _ else (k0, e0) :: updateEntry rest key f) k = _
      rw [if_neg h0]
      show (if k0 = k then some e0 else lookupEntry (updateEntry rest key f) k) = _
      by_cases hke : k0 = k
      · rw [if_pos hke]
        show _ = (if k0 = k then some e0 else lookupEntry rest k)
        rw [if_pos hke]
      · rw [if_neg hke, ih key f k hk]
        show _ = (if k0 = k then some e0 else lookupEntry rest k)
        rw [if_neg hke]

lemma updateEntry_keys :
    ∀ (l : List (PyStr × Entry)) (key : PyStr) (f : Entry → Entry),
      (updateEntry l key f).map Prod.fst = l.map Prod.fst := by
  intro l
  induction l with
  | nil => intro key f; rfl
  | cons p rest ih =>
    intro key f
    obtain ⟨k0, e0⟩ := p
    show ((if k0 = key then (k0, f e0) :: rest else (k0, e0) :: updateEntry rest key f)).map
      Prod.fst = _
    by_cases h0 : k0 = key
    · rw [if_pos h0]
      rfl
    · rw [if_neg h0]
      show k0 :: (updateEntry rest key f).map Prod.fst = k0 :: rest.map Prod.fst
      rw [ih key f]

lemma mem_updateEntry :
    ∀ (l : List (PyStr × Entry)) (key : PyStr) (f : Entry → Entry)
      (q : PyStr × Entry), q ∈ updateEntry l key f →
      q ∈ l ∨ ∃ k e, q = (k, f e) ∧ (k, e) ∈ l := by
  intro l
  induction l with
  | nil => intro key f q h; cases h
  | cons p rest ih =>
    intro key f q h
    obtain ⟨k0, e0⟩ := p
    by_cases h0 : k0 = key
    · rw [show updateEntry ((k0, e0) :: rest) key f =
        (k0, f e0) :: rest from by show (if k0 = key then _ else _) = _; rw [if_pos h0]] at h
      rcases List.mem_cons.mp h with rfl | hq
      · exact Or.inr ⟨k0, e0, rfl, List.mem_cons_self _ _⟩
      · exact Or.inl (List.mem_cons_of_mem _ hq)
    · rw [show updateEntry ((k0, e0) :: rest) key f =
        (k0, e0) :: updateEntry rest key f from by
          show (if k0 = key then _ else _) = _; rw [if_neg h0]] at h
      rcases List.mem_cons.mp h with rfl | hq
      · exact Or.inl (List.mem_cons_self _ _)
      · rcases ih key f q hq with hq | ⟨k, e, hqe, hke⟩
        · exact Or.inl (List.mem_cons_of_mem _ hq)
        · exact Or.inr ⟨k, e, hqe, List.mem_cons_of_mem _ hke⟩

/-! ### The build step -/

lemma step_skip (entries : List (PyStr × Entry)) (row : RawRow)
    (h : extractRow row = none) : step entries row = entries := by
  unfold step
  rw [h]

lemma step_merge (entries : List (PyStr × Entry)) (row : RawRow) (d : RowData)
    (e : Entry) (hd : extractRow row = some d)
    (he : lookupEntry entries (rowId d) = some e) :
    step entries row = updateEntry entries (rowId d) (mergeInto d) := by
  unfold step
  rw [hd]
  dsimp only
  rw [he]

lemma step_new (entries : List (PyStr × Entry)) (row : RawRow) (d : RowData)
    (hd : extractRow row = some d)
    (he : lookupEntry entries (rowId d) = none) :
    step entries row = entries ++ [(rowId d, newEntry (rowId d) d)] := by
  unfold step
  rw [hd]
  dsimp only
  rw [he]

lemma step_id_inv (entries : List (PyStr × Entry)) (row : RawRow)
    (h : ∀ p ∈ entries, p.2.id = p.1) :
    ∀ p ∈ step entries row, p.2.id = p.1 := by
  intro p hp
  cases hx : extractRow row with
  | none =>
    rw [step_skip entries row hx] at hp
    exact h p hp
  | some d =>
    cases hl : lookupEntry entries (rowId d) with
    | none =>
      rw [step_new entries row d hx hl] at hp
      rcases List.mem_append.mp hp with hp | hp
      · exact h p hp
      · rw [List.mem_singleton] at hp
        subst hp
        rfl
    | some e =>
      rw [step_merge entries row d e hx hl] at hp
      rcases mem_updateEntry entries (rowId d) (mergeInto d) p hp with hp | ⟨k, e', hqe, hke⟩
      · exact h p hp
      · subst hqe
        show (mergeInto d e').id = k
        have : (mergeInto d e').id = e'.id := rfl
        rw [this]
        exact h (k, e') hke

lemma buildEntries_id_inv :
    ∀ (rows : List RawRow) (entries : List (PyStr × Entry)),
      (∀ p ∈ entries, p.2.id = p.1) →
      ∀ p ∈ rows.foldl step entries, p.2.id = p.1 := by
  intro rows
  induction rows with
  | nil => intro entries h p hp; exact h p hp
  | cons row rest ih =>
    intro entries h p hp
    exact ih (step entries row) (step_id_inv entries row h) p hp

/-- The two-row build with a shared identity key, in both orders. -/
lemma buildEntries_pair (r1 r2 : RawRow) (d1 d2 : RowData)
    (h1 : extractRow r1 = some d1) (h2 : extractRow r2 = some d2)
    (hid : rowId d1 = rowId d2) :
    buildEntries [r1, r2] =
      [(rowId d1, mergeInto d2 (newEntry (rowId d1) d1))] := by
  unfold buildEntries
  show step (step [] r1) r2 = _
  have hs1 : step [] r1 = [(rowId d1, newEntry (rowId d1) d1)] :=
    step_new [] r1 d1 h1 rfl
  rw [hs1]
  have hl : lookupEntry [(rowId d1, newEntry (rowId d1) d1)] (rowId d2) =
      some (newEntry (rowId d1) d1) := by
    show (if rowId d1 = rowId d2 then _ else _) = _
    rw [if_pos hid]
  rw [step_merge _ r2 d2 (newEntry (rowId d1) d1) h2 hl]
  show updateEntry _ (rowId d2) _ = _
  rw [show updateEntry [(rowId d1, newEntry (rowId d1) d1)] (rowId d2) (mergeInto d2) =
    (if rowId d1 = rowId d2 then
      (rowId d1, mergeInto d2 (newEntry (rowId d1) d1)) :: [] else _) from rfl]
  rw [if_pos hid]

lemma lowerPy_isEmpty (s : PyStr) : (lowerPy s).isEmpty = s.isEmpty :=
  isEmpty_map toLowerPy s

lemma find?_specialty_cardio (combined : PyStr)
    (h : subText (("cardio").data) combined = true) :
    SPECIALTY_KEYWORDS.find? (fun p => subText p.1 combined) =
      some ((("cardio").data), ("Cardiology").data) := by
  unfold SPECIALTY_KEYWORDS
  simp [List.find?, h]

/-! ## The claims -/

set_option maxRecDepth 100000

/-- C1: `looks_like_doctor(name)` returns `true` exactly when the name is
non-empty, its normalized lowercased form is none of the placeholder labels,
no block keyword occurs as a substring of the lowercased form, the
normalized form contains no digit, and splitting on runs of
hyphen/comma/whitespace yields at least 2 non-empty tokens. -/
theorem claim_C1_classifier_rules (name : PyStr) :
    looksLikeDoctor name = true ↔
      name ≠ [] ∧
      lowerPy (normalizeWhitespace name) ∉ STOP_LABELS ∧
      (∀ keyword ∈ BLOCK_KEYWORDS,
        ¬ keyword <:+: lowerPy (normalizeWhitespace name)) ∧
      (∀ c ∈ normalizeWhitespace name, isDigitPy c = false) ∧
      2 ≤ (nameTokens (normalizeWhitespace name)).length := by
  unfold looksLikeDoctor
  split_ifs with h1 h2 h3 h4
  · rw [List.isEmpty_iff] at h1
    simp [h1]
  · rw [decide_eq_true_eq] at h2
    simp only [Bool.false_eq_true, false_iff]
    rintro ⟨-, hstop, -⟩
    exact hstop h2
  · simp only [Bool.false_eq_true, false_iff]
    rw [List.any_eq_true] at h3
    obtain ⟨kw, hkw, hsub⟩ := h3
    rintro ⟨-, -, hblock, -⟩
    exact hblock kw hkw ((subText_iff _ _).mp hsub)
  · simp only [Bool.false_eq_true, false_iff]
    rw [List.any_eq_true] at h4
    obtain ⟨c, hc, hdig⟩ := h4
    rintro ⟨-, -, -, hdigs, -⟩
    rw [hdigs c hc] at hdig
    cases hdig
  · rw [decide_eq_true_eq]
    constructor
    · intro hlen
      refine ⟨?_, ?_, ?_, ?_, hlen⟩
      · intro he
        apply h1
        rw [he]
        rfl
      · intro hmem
        exact h2 (by simpa using hmem)
      · intro kw hkw hinf
        exact h3 (List.any_eq_true.mpr ⟨kw, hkw, (subText_iff _ _).mpr hinf⟩)
      · intro c hc
        by_contra hne
        rw [Bool.not_eq_false] at hne
        exact h4 (List.any_eq_true.mpr ⟨c, hc, hne⟩)
    · rintro ⟨-, -, -, -, hlen⟩
      exact hlen

/-- C1 witness: the classifier accepts `"John Doe"`, and the five rules hold
there. -/
theorem claim_C1_witness : looksLikeDoctor (("John Doe").data) = true :=
  (claim_C1_classifier_rules (("John Doe").data)).mpr (by decide)

/-- C2 counterexample: `rowA` and `rowB` are accepted, share the identity
key (same name, same registration number), but the final entry's
`sourceFile` depends on the processing order, so the two orders do not give
the same final entry up to multi-valued field ordering. -/
theorem claim_C2_counterexample :
    (buildEntries [rowA, rowB]).map (fun p => p.2.sourceFile) ≠
      (buildEntries [rowB, rowA]).map (fun p => p.2.sourceFile) := by
  decide

/-- C2 amended: for two accepted rows with the same identity key, the
multi-valued fields (contacts, credentials, registrationNumbers) of the
final entry are the same for both processing orders, because the merge is a
sorted duplicate-free set union; the singular fields keep the first-seen
row's values and may differ between orders. -/
theorem claim_C2_amended (r1 r2 : RawRow) (d1 d2 : RowData)
    (h1 : extractRow r1 = some d1) (h2 : extractRow r2 = some d2)
    (hid : rowId d1 = rowId d2) :
    ∃ e12 e21,
      lookupEntry (buildEntries [r1, r2]) (rowId d1) = some e12 ∧
      lookupEntry (buildEntries [r2, r1]) (rowId d1) = some e21 ∧
      e12.contacts = e21.contacts ∧
      e12.credentials = e21.credentials ∧
      e12.registrationNumbers = e21.registrationNumbers := by
  refine ⟨mergeInto d2 (newEntry (rowId d1) d1), mergeInto d1 (newEntry (rowId d2) d2),
    ?_, ?_, ?_, ?_, ?_⟩
  · rw [buildEntries_pair r1 r2 d1 d2 h1 h2 hid]
    show (if rowId d1 = rowId d1 then _ else _) = _
    rw [if_pos rfl]
  · rw [buildEntries_pair r2 r1 d2 d1 h2 h1 hid.symm]
    show (if rowId d2 = rowId d1 then _ else _) = _
    rw [if_pos hid.symm]
  · exact sortedUnion_comm _ _
  · exact sortedUnion_comm _ _
  · exact sortedUnion_comm _ _

/-- C2 witness: the amended statement at the concrete pair `rowA`, `rowB`. -/
theorem claim_C2_witness :
    extractRow rowA = some rowDataA ∧ extractRow rowB = some rowDataB ∧
    (∃ e12 e21,
      lookupEntry (buildEntries [rowA, rowB]) (rowId rowDataA) = some e12 ∧
      lookupEntry (buildEntries [rowB, rowA]) (rowId rowDataA) = some e21 ∧
      e12.contacts = e21.contacts ∧
      e12.credentials = e21.credentials ∧
      e12.registrationNumbers = e21.registrationNumbers) :=
  ⟨by decide, by decide,
   claim_C2_amended rowA rowB rowDataA rowDataB (by decide) (by decide) rfl⟩

/-- C3 counterexample: the single accepted row `rowC` yields an entry whose
`contacts` list is in split order `["b", "a"]`, which is not sorted, so the
multi-valued fields of never-merged entries are not stored sorted. -/
theorem claim_C3_counterexample :
    (buildEntries [rowC]).map (fun p => p.2.contacts) = [[("b").data, ("a").data]] ∧
    ¬ List.Sorted (fun a b : PyStr => a ≤ b) [("b").data, ("a").data] := by
  constructor
  · decide
  · decide

/-- C3 amended: whenever a row merges into an existing entry, the three
multi-valued fields of the updated entry are duplicate-free and sorted;
entries never hit by a second row keep the raw split order of their single
source row. -/
theorem claim_C3_amended (entries : List (PyStr × Entry)) (row : RawRow)
    (d : RowData) (e : Entry) (hd : extractRow row = some d)
    (he : lookupEntry entries (rowId d) = some e) :
    ∃ e', lookupEntry (step entries row) (rowId d) = some e' ∧
      List.Sorted (fun a b : PyStr => a ≤ b) e'.contacts ∧ e'.contacts.Nodup ∧
      List.Sorted (fun a b : PyStr => a ≤ b) e'.credentials ∧ e'.credentials.Nodup ∧
      List.Sorted (fun a b : PyStr => a ≤ b) e'.registrationNumbers ∧
      e'.registrationNumbers.Nodup := by
  refine ⟨mergeInto d e, ?_, sortedUnion_sorted _ _, sortedUnion_nodup _ _,
    sortedUnion_sorted _ _, sortedUnion_nodup _ _, sortedUnion_sorted _ _,
    sortedUnion_nodup _ _⟩
  rw [step_merge entries row d e hd he]
  exact lookupEntry_update_self _ _ _ _ he

/-- C3 witness: the amended statement at a concrete merge of `rowB` into the
entry built from `rowA`. -/
theorem claim_C3_witness :
    extractRow rowB = some rowDataB ∧
    (∃ e', lookupEntry (step [(rowId rowDataA, entryA)] rowB) (rowId rowDataB) = some e' ∧
      List.Sorted (fun a b : PyStr => a ≤ b) e'.contacts ∧ e'.contacts.Nodup ∧
      List.Sorted (fun a b : PyStr => a ≤ b) e'.credentials ∧ e'.credentials.Nodup ∧
      List.Sorted (fun a b : PyStr => a ≤ b) e'.registrationNumbers ∧
      e'.registrationNumbers.Nodup) := by
  have hkey : rowId rowDataB = rowId rowDataA := rfl
  have he : lookupEntry [(rowId rowDataA, entryA)] (rowId rowDataB) = some entryA := by
    show (if rowId rowDataA = rowId rowDataB then some entryA
      else lookupEntry [] (rowId rowDataB)) = some entryA
    rw [if_pos hkey.symm]
  exact ⟨by decide, claim_C3_amended [(rowId rowDataA, entryA)] rowB rowDataB entryA
    (by decide) he⟩

/-- C4: the identity key of every accepted row is the SHA-1 hex digest of
`lower(name) + "|" + (first registration number, else lower(source file))`
truncated to exactly 12 hex characters; it is a function of
`(name, registrationNumbers, sourceFile)` only, and every stored entry's
`id` field equals its key in the mapping. -/
theorem claim_C4_identity_key :
    (∀ d : RowData, rowId d =
      (sha1Hex (utf8Bytes (lowerPy d.name ++ '|' ::
        (match d.regNumbers with
          | r :: _ => r
          | [] => lowerPy d.sourceValue)))).take 12) ∧
    (∀ d : RowData, (rowId d).length = 12 ∧
      ∀ c ∈ rowId d, c ∈ ("0123456789abcdef").data) ∧
    (∀ d1 d2 : RowData, d1.name = d2.name → d1.regNumbers = d2.regNumbers →
      d1.sourceValue = d2.sourceValue → rowId d1 = rowId d2) ∧
    (∀ (rows : List RawRow) (p : PyStr × Entry), p ∈ buildEntries rows →
      p.2.id = p.1) := by
  refine ⟨fun d => rfl,
    fun d => ⟨entryIdOf_length _ _ _, entryIdOf_hex _ _ _⟩, ?_, ?_⟩
  · intro d1 d2 hn hr hs
    unfold rowId entryIdOf keyBasis
    rw [hn, hr, hs]
  · intro rows p hp
    exact buildEntries_id_inv rows [] (fun q hq => absurd hq (List.not_mem_nil q)) p hp

/-- C4 witness: determinism, the 12-character length, and the id-equals-key
invariant, at the concrete row data of `rowA`. -/
theorem claim_C4_witness :
    rowDataA.name = rowDataA2.name ∧ rowDataA.regNumbers = rowDataA2.regNumbers ∧
    rowDataA.sourceValue = rowDataA2.sourceValue ∧
    rowId rowDataA = rowId rowDataA2 ∧ (rowId rowDataA).length = 12 ∧
    idPairA ∈ buildEntries [rowA] ∧ idPairA.2.id = idPairA.1 :=
  ⟨rfl, rfl, rfl,
   claim_C4_identity_key.2.2.1 rowDataA rowDataA2 rfl rfl rfl,
   (claim_C4_identity_key.2.1 rowDataA).1,
   by decide,
   claim_C4_identity_key.2.2.2 [rowA] idPairA (by decide)⟩

/-- C5 counterexample: on the tab-only string, `split_multi_value` returns a
list whose only element is the empty string. -/
theorem claim_C5_counterexample : splitMultiValue (("\t").data) = [([] : PyStr)] := by
  decide

/-- C5 amended: `split_multi_value` returns no empty elements provided every
whitespace character of the input is a plain space or a newline (which holds
for every whitespace-normalized string, i.e. every input the pipeline ever
passes); any other whitespace character — tab, CR, VT, FF, FS, NEL, NBSP
and the rest of the class — survives `strip(" ;")` yet normalizes away. -/
theorem claim_C5_amended (value : PyStr)
    (hval : ∀ c ∈ value, isPySpace c = true → c = ' ' ∨ c = '\n') :
    ∀ x ∈ splitMultiValue value, x ≠ [] :=
  splitMultiValue_ne_nil value hval

/-- C5 witness: the amended statement at the concrete input `"a; b;;c "`. -/
theorem claim_C5_witness :
    (∀ c ∈ (("a; b;;c ").data : PyStr), isPySpace c = true → c = ' ' ∨ c = '\n') ∧
    (∀ x ∈ splitMultiValue (("a; b;;c ").data), x ≠ []) :=
  ⟨by decide, claim_C5_amended _ (by decide)⟩

/-- C6: `infer_specialty` returns the label of the first keyword (in
declaration order) occurring as a substring of the lowercased space-joined
non-empty fields, `"General Practice"` when none occurs, and in particular
`"Cardiology"` whenever the combined text contains both `"cardio"` and
`"derma"`. -/
theorem claim_C6_specialty_first_match (fields : List PyStr) :
    (∀ kw sp, SPECIALTY_KEYWORDS.find?
        (fun p => subText p.1 (combinedText fields)) = some (kw, sp) →
      inferSpecialty fields = sp) ∧
    (SPECIALTY_KEYWORDS.find? (fun p => subText p.1 (combinedText fields)) = none →
      inferSpecialty fields = ("General Practice").data) ∧
    ((("cardio").data <:+: combinedText fields) →
      (("derma").data <:+: combinedText fields) →
      inferSpecialty fields = ("Cardiology").data) := by
  refine ⟨?_, ?_, ?_⟩
  · intro kw sp hfind
    unfold inferSpecialty
    rw [findSpecialty_eq_find, hfind]
    rfl
  · intro hfind
    unfold inferSpecialty
    rw [findSpecialty_eq_find, hfind]
    rfl
  · intro hc _
    unfold inferSpecialty
    rw [findSpecialty_eq_find,
      find?_specialty_cardio _ ((subText_iff _ _).mpr hc)]
    rfl

/-- C6 witness: a field containing both `"cardio"` and `"derma"` maps to
`"Cardiology"`. -/
theorem claim_C6_witness :
    ((("cardio").data : PyStr) <:+: combinedText [("MD cardio derma").data]) ∧
    inferSpecialty [("MD cardio derma").data] = ("Cardiology").data :=
  ⟨by decide,
   (claim_C6_specialty_first_match [("MD cardio derma").data]).2.2
     (by decide) (by decide)⟩

/-- C7: merging an accepted row whose key is already present updates only
the three multi-valued fields of the existing entry by sorted set union,
leaves `id`, `name`, `specialty`, `sourceFile` unchanged, inserts no new
entry, and leaves every other key's entry untouched. -/
theorem claim_C7_merge_frame (entries : List (PyStr × Entry)) (row : RawRow)
    (d : RowData) (e : Entry) (hd : extractRow row = some d)
    (he : lookupEntry entries (rowId d) = some e) :
    (step entries row).map Prod.fst = entries.map Prod.fst ∧
    lookupEntry (step entries row) (rowId d) = some (mergeInto d e) ∧
    (mergeInto d e).id = e.id ∧ (mergeInto d e).name = e.name ∧
    (mergeInto d e).specialty = e.specialty ∧
    (mergeInto d e).sourceFile = e.sourceFile ∧
    (mergeInto d e).contacts = sortedUnion e.contacts d.contacts ∧
    (mergeInto d e).credentials = sortedUnion e.credentials d.credentials ∧
    (mergeInto d e).registrationNumbers =
      sortedUnion e.registrationNumbers d.regNumbers ∧
    (∀ k, k ≠ rowId d → lookupEntry (step entries row) k = lookupEntry entries k) := by
  rw [step_merge entries row d e hd he]
  refine ⟨updateEntry_keys _ _ _, lookupEntry_update_self _ _ _ _ he,
    rfl, rfl, rfl, rfl, rfl, rfl, rfl, ?_⟩
  intro k hk
  exact lookupEntry_update_other _ _ _ k hk

/-- C7 witness: merging `rowB` into the one-entry mapping built from `rowA`
keeps the key list unchanged. -/
theorem claim_C7_witness :
    extractRow rowB = some rowDataB ∧
    (step [(rowId rowDataA, entryA)] rowB).map Prod.fst =
      [(rowId rowDataA, entryA)].map Prod.fst := by
  have hkey : rowId rowDataB = rowId rowDataA := rfl
  have he : lookupEntry [(rowId rowDataA, entryA)] (rowId rowDataB) = some entryA := by
    show (if rowId rowDataA = rowId rowDataB then some entryA
      else lookupEntry [] (rowId rowDataB)) = some entryA
    rw [if_pos hkey.symm]
  exact ⟨by decide,
    (claim_C7_merge_frame [(rowId rowDataA, entryA)] rowB rowDataB entryA
      (by decide) he).1⟩

/-- C8: when the input spreadsheet is absent, `build_directory` raises the
fatal error before any processing and the filesystem state — in particular
the output file — is unchanged. -/
theorem claim_C8_missing_input (fs : FsState) (h : fs.numbersFile = none) :
    buildDirectory fs = (fs, some (("Numbers file not found").data)) := by
  unfold buildDirectory
  rw [h]

/-- C8 witness: the missing-input behaviour on the empty state. -/
theorem claim_C8_witness :
    fs0.numbersFile = none ∧
    buildDirectory fs0 = (fs0, some (("Numbers file not found").data)) :=
  ⟨rfl, claim_C8_missing_input fs0 rfl⟩

/-- C9: `normalize_whitespace` is idempotent. -/
theorem claim_C9_normalize_idem (s : PyStr) :
    normalizeWhitespace (normalizeWhitespace s) = normalizeWhitespace s := by
  show joinSp (pyWords (joinSp (pyWords s))) = joinSp (pyWords s)
  rw [pyWords_joinSp (pyWords s) (pyWords_mem s)]

/-- C10: the classifier's verdict is invariant under lower-casing its
input. -/
theorem claim_C10_case_invariant (s : PyStr) :
    looksLikeDoctor (lowerPy s) = looksLikeDoctor s := by
  unfold looksLikeDoctor
  simp only [normalizeWhitespace_lower, lowerPy_idem, any_digit_lower,
    nameTokens_map_lower, List.length_map, lowerPy_isEmpty]

end DoctorDir

